import Mathlib

/-
Verification of the task-runner UI (`src/devenv-tasks/src/ui.rs`) against its
natural-language specification.

The file shallowly embeds the functions of `ui.rs` over a snapshot model of the
shared task state: the task graph is a list of task state cells, a snapshot of
the whole graph is a `Graph`, and the live, concurrently mutated state is a
stream `Nat → Graph` of snapshots, one per read performed by the UI.  The
engine (`Tasks` in `tasks.rs`) and the status types (`types.rs`) are not part
of the given sources; where a definition depends on them it is modelled from
the specification and says so in its doc comment.  Timestamps and durations are
modelled as natural numbers of milliseconds on one global monotonic clock;
terminal styling (the `console` crate colour escapes) renders text unchanged,
so styled text is modelled by the text itself.
-/

namespace Devenv

/-- Reason a task was skipped.  Modelled from the spec: `Skipped(reason)`
where `reason` is `Cached(fingerprint)` (a prior successful result reused) or
`NotImplemented` (task has no runnable action); the `Skipped` type itself lives
in the `types` module, outside the given sources. -/
inductive Skipped where
  | cached (fingerprint : String)
  | notImplemented
  deriving DecidableEq, Repr

/-- Failure payload of a failed task.  Modelled from the spec: `failure` holds
an error description plus two time-ordered sequences of captured lines,
`stdout` and `stderr`, each entry a (timestamp, text) pair; the type itself
lives in the `types` module, outside the given sources. -/
structure Failure where
  error : String
  stdout : List (Nat × String)
  stderr : List (Nat × String)
  deriving DecidableEq, Repr

/-- Terminal outcome of a task.  Modelled from the spec: `Success(duration,
output)`, `Failed(duration, failure)`, `Skipped(reason)` or
`DependencyFailed`; the type itself lives in the `types` module, outside the
given sources.  The per-task success output is opaque to the UI. -/
inductive TaskCompleted where
  | success (duration : Nat) (output : Option String)
  | failed (duration : Nat) (failure : Failure)
  | skipped (reason : Skipped)
  | dependencyFailed
  deriving DecidableEq, Repr

/-- Status of one task.  Modelled from the spec: `Pending`, `Running(started_at)`
with a monotonic start timestamp, or `Completed(outcome)`; the type itself
lives in the `types` module, outside the given sources. -/
inductive TaskStatus where
  | pending
  | running (started : Nat)
  | completed (outcome : TaskCompleted)
  deriving DecidableEq, Repr

/-- One task state cell as the UI reads it: the task name from the immutable
definition together with the current status.  Modelled from the spec: a
`TaskState` couples a definition reference with the mutable `TaskStatus`. -/
structure TaskState where
  task_name : String
  status : TaskStatus
  deriving DecidableEq, Repr

/-- A consistent snapshot of every task state cell, indexed like
`self.tasks.graph`: position `i` holds the cell of graph node index `i`. -/
abbrev Graph := List TaskState

/-- Whether a status is terminal (`Completed(*)`), after which the spec
guarantees it never changes again. -/
def isTerminal : TaskStatus → Bool
  | .completed _ => true
  | _ => false

/-- Right-pad with spaces to `w` characters: the Rust string format `{:w}`
(strings left-align by default). -/
def padRight (s : String) (w : Nat) : String :=
  s ++ String.mk (List.replicate (w - s.length) ' ')

/-- Left-pad with zeros to `w` characters, as Rust numeric formats `{:0w...}` do. -/
def padZeros (s : String) (w : Nat) : String :=
  String.mk (List.replicate (w - s.length) '0') ++ s

/-- Seconds with two decimals, zero-padded to width 7: the Rust format
`{:07.2}` applied to `Duration::as_secs_f32`, at the millisecond resolution of
the model (the third decimal truncates). -/
def fmtSecs07 (ms : Nat) : String :=
  padZeros (toString (ms / 1000) ++ "." ++ padZeros (toString (ms % 1000 / 10)) 2) 7

/-- The Rust debug format `{:.2?}` on a `Duration`, at the millisecond
resolution of the model: seconds with two decimals from one second up,
otherwise milliseconds with two (zero) decimal places. -/
def fmtDurationDebug (ms : Nat) : String :=
  if 1000 ≤ ms then toString (ms / 1000) ++ "." ++ padZeros (toString (ms % 1000 / 10)) 2 ++ "s"
  else toString ms ++ ".00ms"

/-- Status information for all tasks: the `TasksStatus` struct of `ui.rs`. -/
structure TasksStatus where
  lines : List String
  pending : Nat
  running : Nat
  succeeded : Nat
  failed : Nat
  skipped : Nat
  dependency_failed : Nat
  deriving DecidableEq, Repr

/-- `TasksStatus::new`. -/
def TasksStatus.new : TasksStatus :=
  ⟨[], 0, 0, 0, 0, 0, 0⟩

/-- Read one task state cell, as `self.tasks.graph[*index].read().await` does.
An out-of-range index would panic in the source and is excluded by graph
construction; the model returns a pending placeholder there. -/
def readTask (g : Graph) (i : Nat) : TaskState :=
  g.getD i ⟨"", TaskStatus.pending⟩

/-- Status word shown for a skipped task: `"Cached"` for a cache hit,
`"Not implemented"` for a task with no runnable action. -/
def skippedWord : Skipped → String
  | .cached _ => "Cached"
  | .notImplemented => "Not implemented"

/-- One line of `TasksStatus.lines`, from the source format
`"{} {:40} {:10}"` applied to the padded status text, the task name and the
duration text. -/
def taskLine (statusText name durText : String) : String :=
  statusText ++ " " ++ padRight name 40 ++ " " ++ padRight durText 10

/-- The body of one iteration of the `for index in &self.tasks.tasks_order`
loop of `TasksUi::get_tasks_status`: bump the counter selected by the status
and, for every status except `Pending`, push a display line.  `now` is the
current instant, used by `started.elapsed()` for running tasks. -/
def countTask (now : Nat) (ts : TaskState) (acc : TasksStatus) : TasksStatus :=
  match ts.status with
  | .pending =>
      { acc with pending := acc.pending + 1 }
  | .running started =>
      { acc with
        running := acc.running + 1,
        lines := acc.lines ++
          [taskLine (padRight "Running" 17) ts.task_name (toString (now - started) ++ "ms")] }
  | .completed (.skipped reason) =>
      { acc with
        skipped := acc.skipped + 1,
        lines := acc.lines ++
          [taskLine (padRight (skippedWord reason) 17) ts.task_name ""] }
  | .completed (.success duration _) =>
      { acc with
        succeeded := acc.succeeded + 1,
        lines := acc.lines ++
          [taskLine (padRight "Succeeded" 17) ts.task_name (toString duration ++ "ms")] }
  | .completed (.failed duration _) =>
      { acc with
        failed := acc.failed + 1,
        lines := acc.lines ++
          [taskLine (padRight "Failed" 17) ts.task_name (toString duration ++ "ms")] }
  | .completed .dependencyFailed =>
      { acc with
        dependency_failed := acc.dependency_failed + 1,
        lines := acc.lines ++
          [taskLine (padRight "Dependency failed" 17) ts.task_name ""] }

/-- The loop of `TasksUi::get_tasks_status`, folding `countTask` over the
topological order. -/
def get_tasks_status_go (g : Graph) (now : Nat) (acc : TasksStatus) : List Nat → TasksStatus
  | [] => acc
  | i :: rest => get_tasks_status_go g now (countTask now (readTask g i) acc) rest

/-- `TasksUi::get_tasks_status` over one snapshot `g` of the task graph:
walk `tasks_order`, count every task by status and collect a display line for
every task that is not pending. -/
def get_tasks_status (g : Graph) (now : Nat) (order : List Nat) : TasksStatus :=
  get_tasks_status_go g now TasksStatus.new order

/-- Componentwise combination of two `TasksStatus` values: counters add and
line lists append.  Used to restate the accumulating loop as a fold. -/
def addTS (a b : TasksStatus) : TasksStatus :=
  ⟨a.lines ++ b.lines, a.pending + b.pending, a.running + b.running,
   a.succeeded + b.succeeded, a.failed + b.failed, a.skipped + b.skipped,
   a.dependency_failed + b.dependency_failed⟩

lemma addTS_new_right (a : TasksStatus) : addTS a TasksStatus.new = a := by
  cases a
  simp [addTS, TasksStatus.new]

lemma addTS_assoc (a b c : TasksStatus) :
    addTS (addTS a b) c = addTS a (addTS b c) := by
  simp [addTS, Nat.add_assoc]

lemma countTask_split (now : Nat) (ts : TaskState) (acc : TasksStatus) :
    countTask now ts acc = addTS acc (countTask now ts TasksStatus.new) := by
  rcases ts with ⟨name, st⟩
  rcases st with _ | started | c
  · simp [countTask, addTS, TasksStatus.new]
  · simp [countTask, addTS, TasksStatus.new]
  · rcases c with ⟨d, o⟩ | ⟨d, f⟩ | reason | _ <;>
      simp [countTask, addTS, TasksStatus.new]

lemma get_tasks_status_go_add (g : Graph) (now : Nat) :
    ∀ (order : List Nat) (acc : TasksStatus),
      get_tasks_status_go g now acc order =
        addTS acc (get_tasks_status_go g now TasksStatus.new order)
  | [], acc => by simp [get_tasks_status_go, addTS_new_right]
  | i :: rest, acc => by
      rw [get_tasks_status_go, get_tasks_status_go,
        get_tasks_status_go_add g now rest (countTask now (readTask g i) acc),
        get_tasks_status_go_add g now rest (countTask now (readTask g i) TasksStatus.new),
        countTask_split, addTS_assoc]

/-- Unfolding of `get_tasks_status` over a cons cell of the order list. -/
lemma get_tasks_status_cons (g : Graph) (now : Nat) (i : Nat) (rest : List Nat) :
    get_tasks_status g now (i :: rest) =
      addTS (countTask now (readTask g i) TasksStatus.new) (get_tasks_status g now rest) := by
  rw [get_tasks_status, get_tasks_status_go,
    get_tasks_status_go_add g now rest (countTask now (readTask g i) TasksStatus.new)]
  rfl

lemma get_tasks_status_nil (g : Graph) (now : Nat) :
    get_tasks_status g now [] = TasksStatus.new := rfl

/-- Total of the six counters of a `TasksStatus`. -/
def sumTS (t : TasksStatus) : Nat :=
  t.pending + t.running + t.succeeded + t.failed + t.skipped + t.dependency_failed

lemma sumTS_addTS (a b : TasksStatus) : sumTS (addTS a b) = sumTS a + sumTS b := by
  simp [sumTS, addTS]
  omega

lemma sumTS_countTask (now : Nat) (ts : TaskState) :
    sumTS (countTask now ts TasksStatus.new) = 1 := by
  rcases ts with ⟨name, st⟩
  rcases st with _ | started | c
  · simp [countTask, sumTS, TasksStatus.new]
  · simp [countTask, sumTS, TasksStatus.new]
  · rcases c with ⟨d, o⟩ | ⟨d, f⟩ | reason | _ <;>
      simp [countTask, sumTS, TasksStatus.new]

lemma sumTS_get_tasks_status (g : Graph) (now : Nat) :
    ∀ order : List Nat, sumTS (get_tasks_status g now order) = order.length
  | [] => by simp [get_tasks_status_nil, sumTS, TasksStatus.new]
  | i :: rest => by
      rw [get_tasks_status_cons, sumTS_addTS, sumTS_countTask,
        sumTS_get_tasks_status g now rest]
      simp [Nat.add_comm]

lemma lines_countTask_pending (now : Nat) (ts : TaskState) :
    (countTask now ts TasksStatus.new).lines.length +
      (countTask now ts TasksStatus.new).pending = 1 := by
  rcases ts with ⟨name, st⟩
  rcases st with _ | started | c
  · simp [countTask, TasksStatus.new]
  · simp [countTask, TasksStatus.new]
  · rcases c with ⟨d, o⟩ | ⟨d, f⟩ | reason | _ <;>
      simp [countTask, TasksStatus.new]

lemma lines_add_pending (g : Graph) (now : Nat) :
    ∀ order : List Nat,
      (get_tasks_status g now order).lines.length +
        (get_tasks_status g now order).pending = order.length
  | [] => by simp [get_tasks_status_nil, TasksStatus.new]
  | i :: rest => by
      rw [get_tasks_status_cons]
      have h1 := lines_countTask_pending now (readTask g i)
      have h2 := lines_add_pending g now rest
      simp only [addTS, List.length_append, List.length_cons]
      omega

lemma pending_le_length (g : Graph) (now : Nat) (order : List Nat) :
    (get_tasks_status g now order).pending ≤ order.length := by
  have := lines_add_pending g now order
  omega

/-- The display line `get_tasks_status` pushes for one task state, if any:
nothing for a pending task, otherwise the status word, the task name and a
duration text. -/
def statusLineOf (now : Nat) (ts : TaskState) : Option String :=
  match ts.status with
  | .pending => none
  | .running started =>
      some (taskLine (padRight "Running" 17) ts.task_name (toString (now - started) ++ "ms"))
  | .completed (.skipped reason) =>
      some (taskLine (padRight (skippedWord reason) 17) ts.task_name "")
  | .completed (.success d _) =>
      some (taskLine (padRight "Succeeded" 17) ts.task_name (toString d ++ "ms"))
  | .completed (.failed d _) =>
      some (taskLine (padRight "Failed" 17) ts.task_name (toString d ++ "ms"))
  | .completed .dependencyFailed =>
      some (taskLine (padRight "Dependency failed" 17) ts.task_name "")

lemma countTask_lines (now : Nat) (ts : TaskState) :
    (countTask now ts TasksStatus.new).lines = (statusLineOf now ts).toList := by
  rcases ts with ⟨name, st⟩
  rcases st with _ | s | c
  · simp [countTask, statusLineOf, TasksStatus.new]
  · simp [countTask, statusLineOf, TasksStatus.new]
  · rcases c with ⟨d, o⟩ | ⟨d, f⟩ | reason | _ <;>
      simp [countTask, statusLineOf, TasksStatus.new]

lemma get_tasks_status_lines_eq (g : Graph) (now : Nat) :
    ∀ order : List Nat,
      (get_tasks_status g now order).lines =
        order.filterMap (fun i => statusLineOf now (readTask g i))
  | [] => rfl
  | i :: rest => by
      rw [get_tasks_status_cons]
      show (countTask now (readTask g i) TasksStatus.new).lines ++ _ = _
      rw [countTask_lines, get_tasks_status_lines_eq g now rest, List.filterMap_cons]
      cases statusLineOf now (readTask g i) <;> simp

/-- C8: each entry of `tasks_order` is counted exactly once, so the six
counters of the returned `TasksStatus` sum to the length of `tasks_order`.
The hypothesis states the graph-construction invariant that every index in
`tasks_order` is a valid node index. -/
theorem c8_counts_sum {g : Graph} {now : Nat} {order : List Nat}
    (_h : order.all (fun i => i < g.length) = true) :
    (get_tasks_status g now order).pending + (get_tasks_status g now order).running +
      (get_tasks_status g now order).succeeded + (get_tasks_status g now order).failed +
      (get_tasks_status g now order).skipped +
      (get_tasks_status g now order).dependency_failed = order.length := by
  have := sumTS_get_tasks_status g now order
  simpa [sumTS] using this

/-- C8 witness: the counter sum on a concrete three-task graph. -/
theorem c8_counts_sum_witness :
    ([0, 1, 2].all (fun i =>
        i < (([⟨"a", TaskStatus.pending⟩,
              ⟨"b", TaskStatus.running 3⟩,
              ⟨"c", TaskStatus.completed (TaskCompleted.skipped Skipped.notImplemented)⟩] :
          Graph)).length) = true) ∧
      (get_tasks_status
          [⟨"a", TaskStatus.pending⟩,
           ⟨"b", TaskStatus.running 3⟩,
           ⟨"c", TaskStatus.completed (TaskCompleted.skipped Skipped.notImplemented)⟩]
          7 [0, 1, 2]).pending +
        (get_tasks_status
          [⟨"a", TaskStatus.pending⟩,
           ⟨"b", TaskStatus.running 3⟩,
           ⟨"c", TaskStatus.completed (TaskCompleted.skipped Skipped.notImplemented)⟩]
          7 [0, 1, 2]).running +
        (get_tasks_status
          [⟨"a", TaskStatus.pending⟩,
           ⟨"b", TaskStatus.running 3⟩,
           ⟨"c", TaskStatus.completed (TaskCompleted.skipped Skipped.notImplemented)⟩]
          7 [0, 1, 2]).succeeded +
        (get_tasks_status
          [⟨"a", TaskStatus.pending⟩,
           ⟨"b", TaskStatus.running 3⟩,
           ⟨"c", TaskStatus.completed (TaskCompleted.skipped Skipped.notImplemented)⟩]
          7 [0, 1, 2]).failed +
        (get_tasks_status
          [⟨"a", TaskStatus.pending⟩,
           ⟨"b", TaskStatus.running 3⟩,
           ⟨"c", TaskStatus.completed (TaskCompleted.skipped Skipped.notImplemented)⟩]
          7 [0, 1, 2]).skipped +
        (get_tasks_status
          [⟨"a", TaskStatus.pending⟩,
           ⟨"b", TaskStatus.running 3⟩,
           ⟨"c", TaskStatus.completed (TaskCompleted.skipped Skipped.notImplemented)⟩]
          7 [0, 1, 2]).dependency_failed = 3 :=
  ⟨by decide, c8_counts_sum (by decide)⟩

/-- C10: `get_tasks_status` emits a display line exactly for the tasks that
are not pending, so the number of lines is the length of `tasks_order` minus
the pending count.  The hypothesis states the graph-construction invariant
that every index in `tasks_order` is a valid node index. -/
theorem c10_lines_length {g : Graph} {now : Nat} {order : List Nat}
    (_h : order.all (fun i => i < g.length) = true) :
    (get_tasks_status g now order).lines.length =
      order.length - (get_tasks_status g now order).pending := by
  have := lines_add_pending g now order
  omega

/-- C10 witness: the line count on a concrete three-task graph with one
pending task. -/
theorem c10_lines_length_witness :
    ([0, 1, 2].all (fun i =>
        i < (([⟨"a", TaskStatus.pending⟩,
              ⟨"b", TaskStatus.running 3⟩,
              ⟨"c", TaskStatus.completed TaskCompleted.dependencyFailed⟩] :
          Graph)).length) = true) ∧
      (get_tasks_status
          [⟨"a", TaskStatus.pending⟩,
           ⟨"b", TaskStatus.running 3⟩,
           ⟨"c", TaskStatus.completed TaskCompleted.dependencyFailed⟩]
          7 [0, 1, 2]).lines.length =
        [0, 1, 2].length -
          (get_tasks_status
            [⟨"a", TaskStatus.pending⟩,
             ⟨"b", TaskStatus.running 3⟩,
             ⟨"c", TaskStatus.completed TaskCompleted.dependencyFailed⟩]
            7 [0, 1, 2]).pending :=
  ⟨by decide, c10_lines_length (by decide)⟩

/-- Concatenation of a list of strings, in order. -/
def joinAll : List String → String
  | [] => ""
  | s :: rest => s ++ joinAll rest

/-- Text printed for one captured output stream inside the error report: the
source formats `time.elapsed().as_secs_f32()` with `{:07.2}` and appends the
line text, so the shown time runs from the line occurrence timestamp to `now`,
the moment of formatting. -/
def capturedLinesText (now : Nat) (entries : List (Nat × String)) : String :=
  joinAll (entries.map (fun e => fmtSecs07 (now - e.1) ++ ": " ++ e.2 ++ "\n"))

/-- Alternative reading rejected by C7, modelled from the claim words: the
time shown next to a captured line as the offset from the task start to the
line occurrence timestamp. -/
def capturedLinesTextFromStart (started : Nat) (entries : List (Nat × String)) : String :=
  joinAll (entries.map (fun e => fmtSecs07 (e.1 - started) ++ ": " ++ e.2 ++ "\n"))

/-- The report block `TasksUi::format_task_errors` appends for one failed
task: a header with the task name and error description, then the captured
stdout and stderr lines, each prefixed with a time value. -/
def taskErrorBlock (now : Nat) (name : String) (f : Failure) : String :=
  "\n--- " ++ name ++ " failed with error: " ++ f.error ++ "\n" ++
    ("--- " ++ name ++ " stdout:\n") ++
    capturedLinesText now f.stdout ++
    ("--- " ++ name ++ " stderr:\n") ++
    capturedLinesText now f.stderr ++
    "---\n"

/-- `TasksUi::format_task_errors` over one snapshot `g`: walk `tasks_order`
and append an error block for every task whose status is
`Completed(Failed(..))`. -/
def format_task_errors (g : Graph) (now : Nat) : List Nat → String
  | [] => ""
  | i :: rest =>
      (match (readTask g i).status with
       | .completed (.failed _ f) => taskErrorBlock now (readTask g i).task_name f
       | _ => "") ++ format_task_errors g now rest

/-- The error block contributed by one task state: one block for a failed
task, nothing for any other status. -/
def errBlockOf (now : Nat) (ts : TaskState) : Option String :=
  match ts.status with
  | .completed (.failed _ f) => some (taskErrorBlock now ts.task_name f)
  | _ => none

/-- Whether a status is `Completed(Failed(..))`. -/
def isFailedStatus : TaskStatus → Bool
  | .completed (.failed _ _) => true
  | _ => false

lemma format_task_errors_eq (g : Graph) (now : Nat) :
    ∀ order : List Nat,
      format_task_errors g now order =
        joinAll (order.filterMap (fun i => errBlockOf now (readTask g i)))
  | [] => rfl
  | i :: rest => by
      rw [format_task_errors, format_task_errors_eq g now rest]
      rcases h : (readTask g i).status with _ | s | c
      · simp [errBlockOf, h, joinAll, List.filterMap_cons, String.empty_append]
      · simp [errBlockOf, h, joinAll, List.filterMap_cons, String.empty_append]
      · rcases c with ⟨d, o⟩ | ⟨d, f⟩ | reason | _ <;>
          simp [errBlockOf, h, joinAll, List.filterMap_cons, String.empty_append]

lemma format_task_errors_no_failed (g : Graph) (now : Nat) :
    ∀ order : List Nat,
      (∀ i ∈ order, isFailedStatus (readTask g i).status = false) →
        format_task_errors g now order = ""
  | [] => fun _ => rfl
  | i :: rest => by
      intro h
      rw [format_task_errors,
        format_task_errors_no_failed g now rest (fun j hj => h j (List.mem_cons_of_mem i hj))]
      have hi := h i (List.mem_cons_self i rest)
      rcases hs : (readTask g i).status with _ | s | c
      · simp
      · simp
      · rcases c with ⟨d, o⟩ | ⟨d, f⟩ | reason | _ <;> simp_all [isFailedStatus]

/-- C5: the error report is exactly the concatenation, in `tasks_order`
order, of one block per task whose status is `Completed(Failed(..))` — each
block holding the task name, the error description and the captured stdout
and stderr lines prefixed with a time value (see `taskErrorBlock`) — while
tasks in every other status contribute nothing; in particular, when no task
ended failed the report is the empty string. -/
theorem c5_error_blocks (g : Graph) (now : Nat) (order : List Nat) :
    format_task_errors g now order =
      joinAll (order.filterMap (fun i => errBlockOf now (readTask g i))) ∧
    ((∀ i ∈ order, isFailedStatus (readTask g i).status = false) →
      format_task_errors g now order = "") :=
  ⟨format_task_errors_eq g now order, format_task_errors_no_failed g now order⟩

/-- C5 witness: the two parts of `c5_error_blocks` evaluated on a concrete
graph, one failed task for the block equation and one succeeded task for the
empty report. -/
theorem c5_error_blocks_witness :
    format_task_errors
        [⟨"t", TaskStatus.completed (TaskCompleted.failed 200 ⟨"boom", [(1500, "x")], []⟩)⟩]
        5000 [0] =
      joinAll ([0].filterMap (fun i => errBlockOf 5000
        (readTask
          [⟨"t", TaskStatus.completed (TaskCompleted.failed 200 ⟨"boom", [(1500, "x")], []⟩)⟩]
          i))) ∧
    format_task_errors [⟨"a", TaskStatus.completed (TaskCompleted.success 5 none)⟩] 7 [0] = "" :=
  ⟨(c5_error_blocks
      [⟨"t", TaskStatus.completed (TaskCompleted.failed 200 ⟨"boom", [(1500, "x")], []⟩)⟩]
      5000 [0]).1,
   (c5_error_blocks [⟨"a", TaskStatus.completed (TaskCompleted.success 5 none)⟩] 7 [0]).2
     (by decide)⟩

/-- C7: the time printed next to each captured line is the elapsed time from
the line occurrence timestamp to the moment of formatting (`now - t`), not
the offset from the task start to the occurrence (`t - started`).  The first
part gives the general shape of a printed capture line; the rest evaluates a
failed task whose line occurred at 1500 ms, with the task started at 1000 ms
and the report formatted at 5000 ms: the report shows 3.50 s (time since the
line) where the start-offset reading would show 0.50 s. -/
theorem c7_elapsed_semantics :
    (∀ now t line, capturedLinesText now [(t, line)] =
      fmtSecs07 (now - t) ++ ": " ++ line ++ "\n") ∧
    format_task_errors
        [⟨"t", TaskStatus.completed (TaskCompleted.failed 200 ⟨"boom", [(1500, "x")], []⟩)⟩]
        5000 [0] =
      "\n--- t failed with error: boom\n--- t stdout:\n0003.50: x\n--- t stderr:\n---\n" ∧
    capturedLinesText 5000 [(1500, "x")] = "0003.50: x\n" ∧
    capturedLinesTextFromStart 1000 [(1500, "x")] = "0000.50: x\n" ∧
    capturedLinesText 5000 [(1500, "x")] ≠ capturedLinesTextFromStart 1000 [(1500, "x")] := by
  refine ⟨fun now t line => ?_, by decide, by decide, by decide, by decide⟩
  show joinAll [fmtSecs07 (now - t) ++ ": " ++ line ++ "\n"] = _
  rw [joinAll, joinAll, String.append_empty]

/-- Lookup in the `last_statuses` map (a `HashMap<String, String>` in the
source, modelled as an association list with the most recent insertion in
front). -/
def lookupStatus : List (String × String) → String → Option String
  | [], _ => none
  | e :: rest, k => if e.1 = k then some e.2 else lookupStatus rest k

/-- Insertion into the `last_statuses` map, overwriting any previous entry
for the same key. -/
def insertStatus (m : List (String × String)) (k v : String) : List (String × String) :=
  (k, v) :: m.filter (fun e => ! decide (e.1 = k))

lemma lookup_insert_self (m : List (String × String)) (k v : String) :
    lookupStatus (insertStatus m k v) k = some v := by
  simp [insertStatus, lookupStatus]

lemma lookup_filter_other (k k2 : String) (h : k2 ≠ k) :
    ∀ m : List (String × String),
      lookupStatus (m.filter (fun e => ! decide (e.1 = k))) k2 = lookupStatus m k2
  | [] => rfl
  | e :: rest => by
      have hkk2 : ¬ (k = k2) := fun hh => h hh.symm
      by_cases he : e.1 = k
      · have hk2 : ¬ (e.1 = k2) := by
          rw [he]
          exact hkk2
        simp [List.filter_cons, he, lookupStatus, hk2, hkk2, h,
          lookup_filter_other k k2 h rest]
      · by_cases he2 : e.1 = k2 <;>
          simp [List.filter_cons, he, lookupStatus, he2, hkk2, h,
            lookup_filter_other k k2 h rest]

lemma lookup_insert_other (m : List (String × String)) (k v k2 : String) (h : k2 ≠ k) :
    lookupStatus (insertStatus m k v) k2 = lookupStatus m k2 := by
  have hk : k ≠ k2 := fun hkk => h hkk.symm
  simp [insertStatus, lookupStatus, hk, lookup_filter_other k k2 h m]

/-- The pair of the status word and the duration suffix the non-interactive
branch computes for a completed task:`("Succeeded", " (1.50s)")`,
`("Cached", "")`, `("Not implemented", "")`, `("Failed", " (1.50s)")` or
`("Dependency failed", "")`. -/
def completedWordDur : TaskCompleted → String × String
  | .success d _ => ("Succeeded", " (" ++ fmtDurationDebug d ++ ")")
  | .skipped (.cached _) => ("Cached", "")
  | .skipped .notImplemented => ("Not implemented", "")
  | .failed d _ => ("Failed", " (" ++ fmtDurationDebug d ++ ")")
  | .dependencyFailed => ("Dependency failed", "")

/-- The `current_status` string the non-interactive loop records for a task
in `last_statuses`: `"Pending"`, `"Running"`, or the completed status word
with its duration suffix. -/
def renderedStatus : TaskStatus → String
  | .pending => "Pending"
  | .running _ => "Running"
  | .completed c => (completedWordDur c).1 ++ (completedWordDur c).2

/-- The status line the non-interactive loop writes for one task, from the
source format `"{:17} {}{}"` with the styled status word, the task name and
the duration suffix (running tasks have no suffix). -/
def nonInteractiveLineText (ts : TaskState) : String :=
  match ts.status with
  | .pending => ""
  | .running _ => padRight "Running" 17 ++ " " ++ ts.task_name
  | .completed c =>
      padRight (completedWordDur c).1 17 ++ " " ++ ts.task_name ++ (completedWordDur c).2

/-- One iteration of the non-interactive `for task_state in
self.tasks.graph.node_weights()` loop of `TasksUi::run` (lines 262 to 338 of
`ui.rs`): the line written for this task, if any.  Nothing is written for a
pending task; otherwise a line is written on the first observation of the
task, or when the rendered status differs from the one recorded in
`last_statuses`. -/
def nonInteractivePrint (last : List (String × String)) (ts : TaskState) : Option String :=
  match ts.status with
  | .pending => none
  | .running _ =>
      match lookupStatus last ts.task_name with
      | some previous =>
          if previous = "Running" then none else some (nonInteractiveLineText ts)
      | none => some (nonInteractiveLineText ts)
  | .completed c =>
      match lookupStatus last ts.task_name with
      | some previous =>
          if previous = (completedWordDur c).1 ++ (completedWordDur c).2 then none
          else some (nonInteractiveLineText ts)
      | none => some (nonInteractiveLineText ts)

/-- The whole non-interactive status pass of one loop iteration of
`TasksUi::run`, over one snapshot of the graph in graph node order (the order
`node_weights()` yields), returning the written lines and the updated
`last_statuses` map. -/
def nonInteractiveWalk (last : List (String × String)) : Graph → List String × List (String × String)
  | [] => ([], last)
  | ts :: rest =>
      let printed := nonInteractivePrint last ts
      let next := nonInteractiveWalk (insertStatus last ts.task_name (renderedStatus ts.status)) rest
      (printed.toList ++ next.1, next.2)

/-- Modelled from the spec words for C3 (`tasks_order` as the canonical
reporting order): the same non-interactive status pass, but enumerating tasks
in `tasks_order` instead of graph node order. -/
def nonInteractiveWalkOrderSpec (g : Graph) (last : List (String × String)) :
    List Nat → List String × List (String × String)
  | [] => ([], last)
  | i :: rest =>
      let ts := readTask g i
      let printed := nonInteractivePrint last ts
      let next := nonInteractiveWalkOrderSpec g
        (insertStatus last ts.task_name (renderedStatus ts.status)) rest
      (printed.toList ++ next.1, next.2)

lemma nonInteractivePrint_congr (l1 l2 : List (String × String)) (ts : TaskState)
    (h : lookupStatus l1 ts.task_name = lookupStatus l2 ts.task_name) :
    nonInteractivePrint l1 ts = nonInteractivePrint l2 ts := by
  rcases ts with ⟨name, st⟩
  rcases st with _ | s | c <;> simp_all [nonInteractivePrint]

lemma nonInteractiveWalk_filterMap :
    ∀ (g : Graph) (last : List (String × String)),
      (g.map (fun ts => ts.task_name)).Nodup →
        (nonInteractiveWalk last g).1 = g.filterMap (nonInteractivePrint last)
  | [], _, _ => rfl
  | ts :: rest, last, h => by
      rw [List.map_cons, List.nodup_cons] at h
      rw [nonInteractiveWalk]
      have hrest := nonInteractiveWalk_filterMap rest
        (insertStatus last ts.task_name (renderedStatus ts.status)) h.2
      have hsame : rest.filterMap
          (nonInteractivePrint (insertStatus last ts.task_name (renderedStatus ts.status))) =
          rest.filterMap (nonInteractivePrint last) := by
        refine List.filterMap_congr (fun t ht => ?_)
        refine nonInteractivePrint_congr _ _ t
          (lookup_insert_other last ts.task_name (renderedStatus ts.status) t.task_name ?_)
        intro heq
        exact h.1 (heq ▸ List.mem_map_of_mem (fun x => x.task_name) ht)
      rw [hrest, hsame, List.filterMap_cons]
      cases nonInteractivePrint last ts <;> simp

/-- C9: in non-interactive mode the run loop never writes a line for a task
whose current status is pending, writes one only on first observation or when
the rendered status differs from the last recorded one, and once the rendered
status has been recorded an immediate re-observation of the same state writes
nothing — never two consecutive identical status lines for one task. -/
theorem c9_print_only_on_change (last : List (String × String)) (ts : TaskState) :
    (∀ line, nonInteractivePrint last ts = some line →
      ts.status ≠ TaskStatus.pending ∧
      (lookupStatus last ts.task_name = none ∨
        lookupStatus last ts.task_name ≠ some (renderedStatus ts.status))) ∧
    nonInteractivePrint (insertStatus last ts.task_name (renderedStatus ts.status)) ts = none := by
  constructor
  · intro line hline
    rcases ts with ⟨name, st⟩
    rcases st with _ | s | c
    · simp [nonInteractivePrint] at hline
    · refine ⟨by simp, ?_⟩
      rcases hl : lookupStatus last name with _ | previous
      · exact Or.inl rfl
      · refine Or.inr ?_
        simp only [nonInteractivePrint, hl] at hline
        intro hsome
        have hpe : previous = renderedStatus (TaskStatus.running s) := by injection hsome
        simp [hpe, renderedStatus] at hline
    · refine ⟨by simp, ?_⟩
      rcases hl : lookupStatus last name with _ | previous
      · exact Or.inl rfl
      · refine Or.inr ?_
        simp only [nonInteractivePrint, hl] at hline
        intro hsome
        have hpe : previous = renderedStatus (TaskStatus.completed c) := by injection hsome
        simp [hpe, renderedStatus] at hline
  · rcases ts with ⟨name, st⟩
    rcases st with _ | s | c <;>
      simp [nonInteractivePrint, lookup_insert_self, renderedStatus]

/-- C9 witness: a first observation of a running task prints (so the
hypothesis of the first part holds), is recorded, and an immediate
re-observation prints nothing. -/
theorem c9_print_only_on_change_witness :
    (⟨"a", TaskStatus.running 0⟩ : TaskState).status ≠ TaskStatus.pending ∧
    (lookupStatus [] "a" = none ∨
      lookupStatus [] "a" ≠ some (renderedStatus (TaskStatus.running 0))) ∧
    nonInteractivePrint (insertStatus [] "a" (renderedStatus (TaskStatus.running 0)))
      ⟨"a", TaskStatus.running 0⟩ = none := by
  have h := c9_print_only_on_change [] ⟨"a", TaskStatus.running 0⟩
  have h1 := h.1 (nonInteractiveLineText ⟨"a", TaskStatus.running 0⟩) (by decide)
  exact ⟨h1.1, h1.2, h.2⟩

/-- A two-task graph, both tasks running, whose topological order is
`[1, 0]` (task `b` before task `a`). -/
def gAB : Graph :=
  [⟨"a", TaskStatus.running 0⟩, ⟨"b", TaskStatus.running 0⟩]

/-- C3 counterexample: with `tasks_order = [1, 0]` the non-interactive
run-loop pass writes the line for task `a` before the line for task `b`,
because it enumerates `graph.node_weights()` in graph node order; enumerating
in `tasks_order` order (the claim) would write them the other way round. -/
theorem c3_counterexample :
    (nonInteractiveWalk [] gAB).1 =
      [nonInteractiveLineText ⟨"a", TaskStatus.running 0⟩,
       nonInteractiveLineText ⟨"b", TaskStatus.running 0⟩] ∧
    (nonInteractiveWalkOrderSpec gAB [] [1, 0]).1 =
      [nonInteractiveLineText ⟨"b", TaskStatus.running 0⟩,
       nonInteractiveLineText ⟨"a", TaskStatus.running 0⟩] ∧
    (nonInteractiveWalk [] gAB).1 ≠ (nonInteractiveWalkOrderSpec gAB [] [1, 0]).1 := by
  refine ⟨by decide, by decide, by decide⟩

/-- C3 (amended): the status lines of `get_tasks_status` and the error blocks
of `format_task_errors` do follow the canonical topological order
`tasks_order`, one optional entry per order element; but the per-task status
lines of the non-interactive run loop enumerate tasks in graph node order —
each task contributes its own optional line in the order the graph stores the
nodes, not in `tasks_order` order. -/
theorem c3_report_order_amended (g : Graph) (now : Nat) (order : List Nat)
    (last : List (String × String))
    (h : (g.map (fun ts => ts.task_name)).Nodup) :
    (get_tasks_status g now order).lines =
      order.filterMap (fun i => statusLineOf now (readTask g i)) ∧
    format_task_errors g now order =
      joinAll (order.filterMap (fun i => errBlockOf now (readTask g i))) ∧
    (nonInteractiveWalk last g).1 = g.filterMap (nonInteractivePrint last) :=
  ⟨get_tasks_status_lines_eq g now order, format_task_errors_eq g now order,
   nonInteractiveWalk_filterMap g last h⟩

/-- C3 amended witness: the three enumeration equations on a concrete
two-task graph with distinct task names and order `[1, 0]`. -/
theorem c3_report_order_amended_witness :
    ((gAB.map (fun ts => ts.task_name)).Nodup) ∧
    ((get_tasks_status gAB 5 [1, 0]).lines =
      [1, 0].filterMap (fun i => statusLineOf 5 (readTask gAB i)) ∧
    format_task_errors gAB 5 [1, 0] =
      joinAll ([1, 0].filterMap (fun i => errBlockOf 5 (readTask gAB i))) ∧
    (nonInteractiveWalk [] gAB).1 = gAB.filterMap (nonInteractivePrint [])) :=
  ⟨by decide, c3_report_order_amended gAB 5 [1, 0] [] (by decide)⟩

/-- Modelled from the spec: the monotonic, one-directional status lifecycle
of a task — `Pending → Running → Completed(Success|Failed)`, or `Pending →
Completed(Skipped|DependencyFailed)` without passing through `Running`, and a
completed status never changes again.  `statusLe a b` states that `b` is
reachable from `a` by zero or more transitions.  The scheduler performing
these transitions lives in `tasks.rs`, outside the given sources. -/
def statusLe : TaskStatus → TaskStatus → Bool
  | .pending, _ => true
  | .running s, .running t => decide (s = t)
  | .running _, .completed (.success _ _) => true
  | .running _, .completed (.failed _ _) => true
  | .running _, _ => false
  | .completed c, .completed d => decide (c = d)
  | .completed _, _ => false

lemma statusLe_refl (s : TaskStatus) : statusLe s s = true := by
  rcases s with _ | t | c <;> simp [statusLe]

lemma statusLe_trans (a b c : TaskStatus)
    (hab : statusLe a b = true) (hbc : statusLe b c = true) : statusLe a c = true := by
  rcases a with _ | s | x
  · simp [statusLe]
  · rcases b with _ | t | y
    · simp [statusLe] at hab
    · have h1 : s = t := by simpa [statusLe] using hab
      subst h1
      exact hbc
    · rcases c with _ | u | z
      · rcases y with ⟨d, o⟩ | ⟨d, f⟩ | r | _ <;> simp [statusLe] at hbc
      · rcases y with ⟨d, o⟩ | ⟨d, f⟩ | r | _ <;> simp [statusLe] at hbc
      · have h2 : y = z := by simpa [statusLe] using hbc
        subst h2
        exact hab
  · rcases b with _ | t | y
    · simp [statusLe] at hab
    · simp [statusLe] at hab
    · have h1 : x = y := by simpa [statusLe] using hab
      subst h1
      exact hbc

lemma statusLe_terminal (a b : TaskStatus)
    (ht : isTerminal a = true) (h : statusLe a b = true) : b = a := by
  rcases a with _ | s | x
  · simp [isTerminal] at ht
  · simp [isTerminal] at ht
  · rcases b with _ | t | y
    · simp [statusLe] at h
    · simp [statusLe] at h
    · have h1 : x = y := by simpa [statusLe] using h
      rw [h1]

/-- Modelled from the spec: one task state cell evolves by keeping the task
name from the immutable definition and advancing the status along the
lifecycle. -/
def taskLe (a b : TaskState) : Bool :=
  decide (a.task_name = b.task_name) && statusLe a.status b.status

/-- Modelled from the spec: between two snapshots the graph evolves cellwise;
the node set itself is fixed at construction. -/
def graphLe : Graph → Graph → Bool
  | [], [] => true
  | a :: ra, b :: rb => taskLe a b && graphLe ra rb
  | _, _ => false

lemma taskLe_refl (a : TaskState) : taskLe a a = true := by
  simp [taskLe, statusLe_refl]

lemma graphLe_refl : ∀ g : Graph, graphLe g g = true
  | [] => rfl
  | a :: rest => by simp [graphLe, taskLe_refl, graphLe_refl rest]

lemma taskLe_trans (a b c : TaskState)
    (h1 : taskLe a b = true) (h2 : taskLe b c = true) : taskLe a c = true := by
  simp only [taskLe, Bool.and_eq_true, decide_eq_true_eq] at h1 h2 ⊢
  exact ⟨h1.1.trans h2.1, statusLe_trans _ _ _ h1.2 h2.2⟩

lemma graphLe_trans : ∀ a b c : Graph,
    graphLe a b = true → graphLe b c = true → graphLe a c = true := by
  intro a
  induction a with
  | nil =>
      intro b c h1 h2
      cases b <;> cases c <;> simp_all [graphLe]
  | cons x ra ih =>
      intro b c h1 h2
      cases b with
      | nil => simp [graphLe] at h1
      | cons y rb =>
          cases c with
          | nil => simp [graphLe] at h2
          | cons z rc =>
              simp only [graphLe, Bool.and_eq_true] at h1 h2 ⊢
              exact ⟨taskLe_trans x y z h1.1 h2.1, ih rb rc h1.2 h2.2⟩

lemma graphLe_readTask : ∀ (a b : Graph), graphLe a b = true →
    ∀ i, isTerminal (readTask a i).status = true → readTask b i = readTask a i := by
  intro a
  induction a with
  | nil =>
      intro b h i ht
      cases b with
      | nil => rfl
      | cons y rb => simp [graphLe] at h
  | cons x ra ih =>
      intro b h i ht
      cases b with
      | nil => simp [graphLe] at h
      | cons y rb =>
          simp only [graphLe, Bool.and_eq_true] at h
          cases i with
          | zero =>
              obtain ⟨hn, hs⟩ : x.task_name = y.task_name ∧ statusLe x.status y.status = true := by
                simpa [taskLe, Bool.and_eq_true, decide_eq_true_eq] using h.1
              have hts : isTerminal x.status = true := ht
              have hys := statusLe_terminal x.status y.status hts hs
              show y = x
              cases x
              cases y
              simp_all
          | succ j => exact ih rb h.2 j ht

/-- Modelled from the spec: the stream of snapshots the UI reads from the
live task graph is monotone — consecutive snapshots are related by the
cellwise status lifecycle (every mutation is published atomically and a
completed status never changes). -/
def MonoW (w : Nat → Graph) : Prop :=
  ∀ n, graphLe (w n) (w (n + 1)) = true

lemma monoW_le {w : Nat → Graph} (h : MonoW w) :
    ∀ {p q : Nat}, p ≤ q → graphLe (w p) (w q) = true := by
  intro p q hpq
  induction hpq with
  | refl => exact graphLe_refl _
  | step _ ih => exact graphLe_trans _ _ _ ih (h _)

lemma counts_zero_terminal (g : Graph) (now : Nat) :
    ∀ order : List Nat,
      (get_tasks_status g now order).pending = 0 →
      (get_tasks_status g now order).running = 0 →
      ∀ i ∈ order, isTerminal (readTask g i).status = true
  | [] => by
      intro _ _ i hi
      simp at hi
  | j :: rest => by
      intro hp hr i hi
      rw [get_tasks_status_cons] at hp hr
      have hp2 : (countTask now (readTask g j) TasksStatus.new).pending +
          (get_tasks_status g now rest).pending = 0 := hp
      have hr2 : (countTask now (readTask g j) TasksStatus.new).running +
          (get_tasks_status g now rest).running = 0 := hr
      rcases List.mem_cons.mp hi with hij | hir
      · subst hij
        rcases hs : (readTask g i).status with _ | s | c
        · have h1 : (countTask now (readTask g i) TasksStatus.new).pending = 1 := by
            simp [countTask, hs, TasksStatus.new]
          omega
        · have h1 : (countTask now (readTask g i) TasksStatus.new).running = 1 := by
            simp [countTask, hs, TasksStatus.new]
          omega
        · simp [isTerminal]
      · exact counts_zero_terminal g now rest (by omega) (by omega) i hir

lemma countTask_terminal_now (now now2 : Nat) (ts : TaskState)
    (ht : isTerminal ts.status = true) (acc : TasksStatus) :
    countTask now2 ts acc = countTask now ts acc := by
  rcases ts with ⟨name, st⟩
  rcases st with _ | s | c
  · simp [isTerminal] at ht
  · simp [isTerminal] at ht
  · rcases c with ⟨d, o⟩ | ⟨d, f⟩ | r | _ <;> simp [countTask]

lemma get_frozen (g g2 : Graph) (now now2 : Nat) :
    ∀ order : List Nat,
      (∀ i ∈ order, readTask g2 i = readTask g i) →
      (∀ i ∈ order, isTerminal (readTask g i).status = true) →
      get_tasks_status g2 now2 order = get_tasks_status g now order
  | [] => by
      intro _ _
      rfl
  | j :: rest => by
      intro hread hterm
      rw [get_tasks_status_cons, get_tasks_status_cons]
      have hj := hterm j (List.mem_cons_self j rest)
      rw [hread j (List.mem_cons_self j rest), countTask_terminal_now now now2 _ hj,
        get_frozen g g2 now now2 rest
          (fun i hi => hread i (List.mem_cons_of_mem j hi))
          (fun i hi => hterm i (List.mem_cons_of_mem j hi))]

lemma get_frozen_of_le {w : Nat → Graph} (hm : MonoW w) {p q : Nat} (hpq : p ≤ q)
    (order : List Nat) (now now2 : Nat)
    (hp0 : (get_tasks_status (w p) now order).pending = 0)
    (hr0 : (get_tasks_status (w p) now order).running = 0) :
    get_tasks_status (w q) now2 order = get_tasks_status (w p) now order := by
  have hterm := counts_zero_terminal (w p) now order hp0 hr0
  have hle := monoW_le hm hpq
  exact get_frozen (w p) (w q) now now2 order
    (fun i hi => graphLe_readTask (w p) (w q) hle i (hterm i hi)) hterm

/-- Verbosity level recognised by the UI (`VerbosityLevel`). -/
inductive Verbosity where
  | quiet
  | normal
  | verbose
  deriving DecidableEq, Repr

/-- Engine-level error surfaced by `TasksUi::run`.  The only fallible
operations inside `run` are console operations (`console_write_line`,
`move_cursor_up`, `clear_to_end_of_screen`); a failure carries the index of
the failing operation. -/
inductive Error where
  | consoleFailed (opIndex : Nat)
  deriving DecidableEq, Repr

/-- Opaque per-run outputs returned by the engine run (`Tasks::run`).
Modelled from the spec: an opaque `Outputs` value carrying whatever the
caller needs post-run; the engine lives in `tasks.rs`, outside the given
sources. -/
structure Outputs where
  value : String
  deriving DecidableEq, Repr

/-- Observer events relevant to C4: a status read at the top of a wait-loop
iteration, and a suspension on the change notifier
(`self.tasks.notify_ui.notified().await`). -/
inductive Event where
  | statusRead
  | notifyAwait
  deriving DecidableEq, Repr

/-- Ambient data of one `TasksUi::run` call.  `w n` is the snapshot observed
by the n-th state read and `clock n` the instant of that read; the stream
models the live, engine-mutated task graph.  `fails n` tells whether the n-th
console operation fails (the terminal is an external collaborator).  The
remaining fields are the immutable data of `TasksUi`: the topological order,
the requested root names, the longest task name length, the instant the run
started, and the outputs the spawned engine run returns. -/
structure RunEnv where
  w : Nat → Graph
  clock : Nat → Nat
  fails : Nat → Bool
  order : List Nat
  rootNames : List String
  longestTaskName : Nat
  started : Nat
  outputs : Outputs

/-- Bookkeeping of one `TasksUi::run` call: the index of the next state read,
the index of the next console operation, the log of messages written so far,
and the observer events of C4. -/
structure RunState where
  pos : Nat
  widx : Nat
  log : List String
  events : List Event
  deriving DecidableEq, Repr

/-- `TasksUi::console_write_line`: one fallible console write; on success the
message is appended to the log. -/
def writeLine (fails : Nat → Bool) (st : RunState) (msg : String) : Except Error RunState :=
  if fails st.widx then Except.error (Error.consoleFailed st.widx)
  else Except.ok { st with widx := st.widx + 1, log := st.log ++ [msg] }

/-- A fallible cursor operation on the terminal (`move_cursor_up` or
`clear_to_end_of_screen`); writes no message. -/
def termOp (fails : Nat → Bool) (st : RunState) : Except Error RunState :=
  if fails st.widx then Except.error (Error.consoleFailed st.widx)
  else Except.ok { st with widx := st.widx + 1 }

/-- The `status_summary` of the run loop: the nonzero counters, each shown as
the count followed by its label, joined with `", "` after dropping the empty
entries. -/
def statusSummary (ts : TasksStatus) : String :=
  String.intercalate ", "
    (([if ts.pending > 0 then toString ts.pending ++ " Pending" else "",
       if ts.running > 0 then toString ts.running ++ " Running" else "",
       if ts.skipped > 0 then toString ts.skipped ++ " Skipped" else "",
       if ts.succeeded > 0 then toString ts.succeeded ++ " Succeeded" else "",
       if ts.failed > 0 then toString ts.failed ++ " Failed" else "",
       if ts.dependency_failed > 0 then
         toString ts.dependency_failed ++ " Dependency Failed"
       else ""]).filter (fun s => ! decide (s = "")))

/-- The cursor prefix of a TTY redraw: when a previous list exists, move the
cursor up over it and clear to the end of the screen (two cursor
operations). -/
def cursorReset (fails : Nat → Bool) (height : Nat) (st : RunState) : Except Error RunState :=
  if height > 0 then
    match termOp fails st with
    | Except.error e => Except.error e
    | Except.ok st2 => termOp fails st2
  else Except.ok st

/-- The interactive (TTY) branch of one loop iteration: when the status list
is nonempty, reset the cursor and write the status lines, the summary,
padding spaces and the elapsed time as one console write; in every case
remember the new list height. -/
def ttyRender (env : RunEnv) (st : RunState) (height : Nat) (ts : TasksStatus)
    (summary : String) (now : Nat) : Except Error (RunState × Nat) :=
  let elapsed := fmtDurationDebug (now - env.started)
  let pad := String.mk (List.replicate
    (Nat.max ((19 + env.longestTaskName) - summary.length) 1) ' ')
  let output := String.intercalate "\n" ts.lines ++ "\n" ++ summary ++ pad ++ elapsed
  if ts.lines = [] then Except.ok (st, ts.lines.length + 1)
  else
    match cursorReset env.fails height st with
    | Except.error e => Except.error e
    | Except.ok st2 =>
        match writeLine env.fails st2 output with
        | Except.error e => Except.error e
        | Except.ok st3 => Except.ok (st3, ts.lines.length + 1)

/-- The non-interactive branch of one loop iteration: walk the graph snapshot
in node order, write the status-change line of each task (if any) through the
console, and update `last_statuses`. -/
def walkWrites (fails : Nat → Bool) :
    RunState → List (String × String) → Graph →
      Except Error (RunState × List (String × String))
  | st, last, [] => Except.ok (st, last)
  | st, last, ts :: rest =>
      match (match nonInteractivePrint last ts with
             | none => Except.ok st
             | some line => writeLine fails st line) with
      | Except.error e => Except.error e
      | Except.ok st2 =>
          walkWrites fails st2 (insertStatus last ts.task_name (renderedStatus ts.status)) rest

/-- One iteration of the main status loop of `TasksUi::run`, up to the break
check: read a fresh snapshot, build the `TasksStatus` and the summary, then
render — interactively on a TTY, otherwise through the per-task status-change
pass over a second fresh snapshot. -/
def loopIter (env : RunEnv) (is_tty : Bool) (st0 : RunState) (height : Nat)
    (last : List (String × String)) :
    Except Error (TasksStatus × String × RunState × Nat × List (String × String)) :=
  let g := env.w st0.pos
  let now := env.clock st0.pos
  let st1 : RunState :=
    { st0 with pos := st0.pos + 1, events := st0.events ++ [Event.statusRead] }
  let ts := get_tasks_status g now env.order
  let summary := statusSummary ts
  if is_tty then
    match ttyRender env st1 height ts summary now with
    | Except.error e => Except.error e
    | Except.ok (st2, h2) => Except.ok (ts, summary, st2, h2, last)
  else
    let g2 := env.w st1.pos
    let st2 : RunState := { st1 with pos := st1.pos + 1 }
    match walkWrites env.fails st2 last g2 with
    | Except.error e => Except.error e
    | Except.ok (st3, last3) => Except.ok (ts, summary, st3, height, last3)

/-- The main status loop of `TasksUi::run` (non-quiet verbosity): iterate
`loopIter`; once no task is pending or running, write the summary (in
non-TTY mode) and break; otherwise suspend on the change notifier and loop.
`fuel` bounds the iterations — `none` models a run that still observes
unfinished tasks after `fuel` reads. -/
def mainLoop (env : RunEnv) (is_tty : Bool) :
    Nat → RunState → Nat → List (String × String) →
      Option (Except Error (TasksStatus × RunState))
  | 0, _, _, _ => none
  | Nat.succ fuel, st0, height, last =>
      match loopIter env is_tty st0 height last with
      | Except.error e => some (Except.error e)
      | Except.ok (ts, summary, st, h2, last2) =>
          if ts.pending = 0 ∧ ts.running = 0 then
            if is_tty then some (Except.ok (ts, st))
            else
              match writeLine env.fails st summary with
              | Except.error e => some (Except.error e)
              | Except.ok st2 => some (Except.ok (ts, st2))
          else
            mainLoop env is_tty fuel
              { st with events := st.events ++ [Event.notifyAwait] } h2 last2

/-- The quiet-mode wait loop of `TasksUi::run` (lines 143 to 148 of `ui.rs`):
repeatedly read the status and stop once no task is pending or running, with
no suspension on the change notifier between consecutive reads. -/
def quietLoop (env : RunEnv) : Nat → RunState → Option (TasksStatus × RunState)
  | 0, _ => none
  | Nat.succ fuel, st0 =>
      let g := env.w st0.pos
      let now := env.clock st0.pos
      let st1 : RunState :=
        { st0 with pos := st0.pos + 1, events := st0.events ++ [Event.statusRead] }
      let ts := get_tasks_status g now env.order
      if ts.pending = 0 ∧ ts.running = 0 then some (ts, st1)
      else quietLoop env fuel st1

/-- Write the formatted error report through the console when it is
nonempty, as both run modes do. -/
def maybeWriteErrors (fails : Nat → Bool) (st : RunState) (errors : String) :
    Except Error RunState :=
  if errors = "" then Except.ok st else writeLine fails st errors

/-- The tail of `TasksUi::run`, shared by both modes: format the task errors
from a fresh snapshot, write them when nonempty, then read the status once
more and return it together with the engine outputs. -/
def runTail (env : RunEnv) (st : RunState) :
    Except Error (TasksStatus × Outputs × RunState) :=
  let ge := env.w st.pos
  let nowe := env.clock st.pos
  let st1 : RunState := { st with pos := st.pos + 1 }
  let errors := format_task_errors ge nowe env.order
  match maybeWriteErrors env.fails st1 errors with
  | Except.error e => Except.error e
  | Except.ok st2 =>
      let gf := env.w st2.pos
      let nowf := env.clock st2.pos
      let st3 : RunState := { st2 with pos := st2.pos + 1 }
      Except.ok (get_tasks_status gf nowf env.order, env.outputs, st3)

/-- `TasksUi::run` over the snapshot stream.  The spawned engine run is
modelled by `env.outputs`.  In quiet mode, busy-wait for completion;
otherwise write the header line and drive the main status loop (interactive
exactly when attached to a terminal and not verbose).  Both modes finish
through `runTail`.  `fuel` bounds the loop iterations — `none` models a run
whose tasks are still unfinished after `fuel` reads. -/
def TasksUi.run (env : RunEnv) (verbosity : Verbosity) (is_term : Bool) (fuel : Nat) :
    Option (Except Error (TasksStatus × Outputs × RunState)) :=
  let st0 : RunState := ⟨0, 0, [], []⟩
  if verbosity = Verbosity.quiet then
    match quietLoop env fuel st0 with
    | none => none
    | some (_, st) => some (runTail env st)
  else
    let names := String.intercalate ", " env.rootNames
    let is_tty := is_term && ! decide (verbosity = Verbosity.verbose)
    match writeLine env.fails st0 (padRight "Running tasks" 17 ++ " " ++ names ++ "\n") with
    | Except.error e => some (Except.error e)
    | Except.ok st1 =>
        match mainLoop env is_tty fuel st1 0 [] with
        | none => none
        | some (Except.error e) => some (Except.error e)
        | some (Except.ok (_, st)) => some (runTail env st)

lemma writeLine_ok (fails : Nat → Bool) (st : RunState) (msg : String) (st2 : RunState)
    (h : writeLine fails st msg = Except.ok st2) :
    st2.pos = st.pos ∧ st2.events = st.events := by
  cases hf : fails st.widx <;> simp [writeLine, hf] at h
  subst h
  exact ⟨rfl, rfl⟩

lemma termOp_ok (fails : Nat → Bool) (st : RunState) (st2 : RunState)
    (h : termOp fails st = Except.ok st2) :
    st2.pos = st.pos ∧ st2.events = st.events := by
  cases hf : fails st.widx <;> simp [termOp, hf] at h
  subst h
  exact ⟨rfl, rfl⟩

lemma cursorReset_ok (fails : Nat → Bool) (height : Nat) (st : RunState) (st2 : RunState)
    (h : cursorReset fails height st = Except.ok st2) :
    st2.pos = st.pos ∧ st2.events = st.events := by
  unfold cursorReset at h
  by_cases hh : height > 0
  · rw [if_pos hh] at h
    cases ho : termOp fails st with
    | error e => rw [ho] at h; simp at h
    | ok stx =>
        rw [ho] at h
        obtain ⟨hp1, he1⟩ := termOp_ok fails st stx ho
        obtain ⟨hp2, he2⟩ := termOp_ok fails stx st2 h
        exact ⟨hp2.trans hp1, he2.trans he1⟩
  · rw [if_neg hh] at h
    obtain rfl : st = st2 := by simpa using h
    exact ⟨rfl, rfl⟩

lemma ttyRender_ok (env : RunEnv) (st : RunState) (height : Nat) (ts : TasksStatus)
    (summary : String) (now : Nat) (st2 : RunState) (h2 : Nat)
    (h : ttyRender env st height ts summary now = Except.ok (st2, h2)) :
    st2.pos = st.pos ∧ st2.events = st.events := by
  unfold ttyRender at h
  by_cases hl : ts.lines = []
  · rw [if_pos hl] at h
    obtain ⟨rfl, -⟩ : st = st2 ∧ ts.lines.length + 1 = h2 := by
      simpa [Prod.ext_iff] using h
    exact ⟨rfl, rfl⟩
  · rw [if_neg hl] at h
    cases hc : cursorReset env.fails height st with
    | error e => simp [hc] at h
    | ok stx =>
        simp only [hc] at h
        obtain ⟨hp1, he1⟩ := cursorReset_ok env.fails height st stx hc
        cases hw : writeLine env.fails stx
            (String.intercalate "\n" ts.lines ++ "\n" ++ summary ++
              String.mk (List.replicate
                (Nat.max ((19 + env.longestTaskName) - summary.length) 1) ' ') ++
              fmtDurationDebug (now - env.started)) with
        | error e => simp [hw] at h
        | ok sty =>
            simp only [hw] at h
            obtain ⟨hp2, he2⟩ := writeLine_ok env.fails stx _ sty hw
            obtain ⟨rfl, -⟩ : sty = st2 ∧ ts.lines.length + 1 = h2 := by
              simpa [Prod.ext_iff] using h
            exact ⟨hp2.trans hp1, he2.trans he1⟩

lemma walkWrites_ok (fails : Nat → Bool) :
    ∀ (g : Graph) (st : RunState) (last : List (String × String))
      (st2 : RunState) (last2 : List (String × String)),
      walkWrites fails st last g = Except.ok (st2, last2) →
      st2.pos = st.pos ∧ st2.events = st.events
  | [], st, last, st2, last2 => by
      intro h
      obtain ⟨rfl, -⟩ : st = st2 ∧ last = last2 := by
        simpa [walkWrites, Prod.ext_iff] using h
      exact ⟨rfl, rfl⟩
  | ts :: rest, st, last, st2, last2 => by
      intro h
      rw [walkWrites] at h
      cases hp : nonInteractivePrint last ts with
      | none =>
          rw [hp] at h
          exact walkWrites_ok fails rest st _ st2 last2 h
      | some line =>
          rw [hp] at h
          cases hw : writeLine fails st line with
          | error e => simp [hw] at h
          | ok stx =>
              simp only [hw] at h
              obtain ⟨hp1, he1⟩ := writeLine_ok fails st line stx hw
              obtain ⟨hp2, he2⟩ := walkWrites_ok fails rest stx _ st2 last2 h
              exact ⟨hp2.trans hp1, he2.trans he1⟩

lemma maybeWriteErrors_ok (fails : Nat → Bool) (st : RunState) (errors : String)
    (st2 : RunState) (h : maybeWriteErrors fails st errors = Except.ok st2) :
    st2.pos = st.pos ∧ st2.events = st.events := by
  unfold maybeWriteErrors at h
  by_cases he : errors = ""
  · rw [if_pos he] at h
    obtain rfl : st = st2 := by simpa using h
    exact ⟨rfl, rfl⟩
  · rw [if_neg he] at h
    exact writeLine_ok fails st errors st2 h

lemma writeLine_no_fail {fails : Nat → Bool} (hf : ∀ n, fails n = false)
    (st : RunState) (msg : String) :
    writeLine fails st msg =
      Except.ok { st with widx := st.widx + 1, log := st.log ++ [msg] } := by
  simp [writeLine, hf st.widx]

lemma termOp_no_fail {fails : Nat → Bool} (hf : ∀ n, fails n = false) (st : RunState) :
    termOp fails st = Except.ok { st with widx := st.widx + 1 } := by
  simp [termOp, hf st.widx]

lemma cursorReset_no_fail {fails : Nat → Bool} (hf : ∀ n, fails n = false)
    (height : Nat) (st : RunState) :
    ∃ st2, cursorReset fails height st = Except.ok st2 := by
  unfold cursorReset
  by_cases hh : height > 0
  · rw [if_pos hh]
    simp only [termOp_no_fail hf]
    exact ⟨_, rfl⟩
  · rw [if_neg hh]
    exact ⟨st, rfl⟩

lemma ttyRender_no_fail {env : RunEnv} (hf : ∀ n, env.fails n = false)
    (st : RunState) (height : Nat) (ts : TasksStatus) (summary : String) (now : Nat) :
    ∃ out, ttyRender env st height ts summary now = Except.ok out := by
  unfold ttyRender
  by_cases hl : ts.lines = []
  · rw [if_pos hl]
    exact ⟨_, rfl⟩
  · rw [if_neg hl]
    obtain ⟨stx, hc⟩ := cursorReset_no_fail hf height st
    simp only [hc, writeLine_no_fail hf]
    exact ⟨_, rfl⟩

lemma walkWrites_no_fail {fails : Nat → Bool} (hf : ∀ n, fails n = false) :
    ∀ (g : Graph) (st : RunState) (last : List (String × String)),
      ∃ out, walkWrites fails st last g = Except.ok out
  | [], st, last => ⟨(st, last), rfl⟩
  | ts :: rest, st, last => by
      rw [walkWrites]
      cases hp : nonInteractivePrint last ts with
      | none => exact walkWrites_no_fail hf rest st _
      | some line =>
          simp only [writeLine_no_fail hf]
          exact walkWrites_no_fail hf rest _ _

lemma maybeWriteErrors_no_fail {fails : Nat → Bool} (hf : ∀ n, fails n = false)
    (st : RunState) (errors : String) :
    ∃ st2, maybeWriteErrors fails st errors = Except.ok st2 := by
  unfold maybeWriteErrors
  by_cases he : errors = ""
  · rw [if_pos he]
    exact ⟨st, rfl⟩
  · rw [if_neg he, writeLine_no_fail hf]
    exact ⟨_, rfl⟩

lemma loopIter_ok (env : RunEnv) (is_tty : Bool) (st0 : RunState) (height : Nat)
    (last : List (String × String)) (ts : TasksStatus) (summary : String)
    (st : RunState) (h2 : Nat) (last2 : List (String × String))
    (h : loopIter env is_tty st0 height last = Except.ok (ts, summary, st, h2, last2)) :
    ts = get_tasks_status (env.w st0.pos) (env.clock st0.pos) env.order ∧
    st.events = st0.events ++ [Event.statusRead] ∧
    st0.pos < st.pos := by
  unfold loopIter at h
  split at h
  · cases hr : ttyRender env
        { st0 with pos := st0.pos + 1, events := st0.events ++ [Event.statusRead] } height
        (get_tasks_status (env.w st0.pos) (env.clock st0.pos) env.order)
        (statusSummary (get_tasks_status (env.w st0.pos) (env.clock st0.pos) env.order))
        (env.clock st0.pos) with
    | error e => simp [hr] at h
    | ok out =>
        obtain ⟨stx, hx⟩ := out
        simp only [hr] at h
        simp only [Except.ok.injEq, Prod.mk.injEq] at h
        obtain ⟨hts, -, hst, -, -⟩ := h
        subst hst
        obtain ⟨hp, he⟩ := ttyRender_ok _ _ _ _ _ _ _ _ hr
        refine ⟨hts.symm, ?_, ?_⟩
        · rw [he]
        · have hp2 : stx.pos = st0.pos + 1 := hp
          omega
  · cases hww : walkWrites env.fails
        { st0 with pos := st0.pos + 1 + 1, events := st0.events ++ [Event.statusRead] }
        last (env.w (st0.pos + 1)) with
    | error e => simp [hww] at h
    | ok out =>
        obtain ⟨stx, lastx⟩ := out
        simp only [hww] at h
        simp only [Except.ok.injEq, Prod.mk.injEq] at h
        obtain ⟨hts, -, hst, -, -⟩ := h
        subst hst
        obtain ⟨hp, he⟩ := walkWrites_ok _ _ _ _ _ _ hww
        refine ⟨hts.symm, ?_, ?_⟩
        · rw [he]
        · have hp2 : stx.pos = st0.pos + 1 + 1 := hp
          omega

lemma loopIter_no_fail {env : RunEnv} (hf : ∀ n, env.fails n = false)
    (is_tty : Bool) (st0 : RunState) (height : Nat) (last : List (String × String)) :
    ∃ out, loopIter env is_tty st0 height last = Except.ok out := by
  unfold loopIter
  split
  · obtain ⟨out, hr⟩ := ttyRender_no_fail hf
      { st0 with pos := st0.pos + 1, events := st0.events ++ [Event.statusRead] } height
      (get_tasks_status (env.w st0.pos) (env.clock st0.pos) env.order)
      (statusSummary (get_tasks_status (env.w st0.pos) (env.clock st0.pos) env.order))
      (env.clock st0.pos)
    obtain ⟨stx, hx⟩ := out
    simp only [hr]
    exact ⟨_, rfl⟩
  · obtain ⟨out, hww⟩ := walkWrites_no_fail hf (env.w (st0.pos + 1))
      { st0 with pos := st0.pos + 1 + 1, events := st0.events ++ [Event.statusRead] } last
    obtain ⟨stx, lastx⟩ := out
    simp only [hww]
    exact ⟨_, rfl⟩

lemma mainLoop_spec (env : RunEnv) (is_tty : Bool) :
    ∀ (fuel : Nat) (st0 : RunState) (height : Nat) (last : List (String × String))
      (ts : TasksStatus) (st : RunState),
      mainLoop env is_tty fuel st0 height last = some (Except.ok (ts, st)) →
      ∃ p, st0.pos ≤ p ∧ p < st.pos ∧
        ts = get_tasks_status (env.w p) (env.clock p) env.order ∧
        ts.pending = 0 ∧ ts.running = 0
  | 0, st0, height, last, ts, st => by
      intro h
      simp [mainLoop] at h
  | Nat.succ fuel, st0, height, last, ts, st => by
      intro h
      rw [mainLoop] at h
      cases hi : loopIter env is_tty st0 height last with
      | error e => simp [hi] at h
      | ok out =>
          obtain ⟨ts1, summary, st1, hh2, last2⟩ := out
          simp only [hi] at h
          obtain ⟨hts1, hev1, hpos1⟩ :=
            loopIter_ok env is_tty st0 height last ts1 summary st1 hh2 last2 hi
          split at h
          · rename_i hz
            split at h
            · simp only [Option.some.injEq, Except.ok.injEq, Prod.mk.injEq] at h
              obtain ⟨hts, hst⟩ := h
              subst hts
              subst hst
              exact ⟨st0.pos, Nat.le_refl _, hpos1, hts1, hz⟩
            · cases hw : writeLine env.fails st1 summary with
              | error e => simp [hw] at h
              | ok st2 =>
                  simp only [hw] at h
                  obtain ⟨hp2, -⟩ := writeLine_ok _ _ _ _ hw
                  simp only [Option.some.injEq, Except.ok.injEq, Prod.mk.injEq] at h
                  obtain ⟨hts, hst⟩ := h
                  subst hts
                  subst hst
                  exact ⟨st0.pos, Nat.le_refl _, by omega, hts1, hz⟩
          · obtain ⟨p, hp1, hp2, hp3, hp4⟩ := mainLoop_spec env is_tty fuel
              { st1 with events := st1.events ++ [Event.notifyAwait] } hh2 last2 ts st h
            have hp1b : st1.pos ≤ p := hp1
            exact ⟨p, by omega, hp2, hp3, hp4⟩

lemma mainLoop_no_error {env : RunEnv} (hf : ∀ n, env.fails n = false) (is_tty : Bool) :
    ∀ (fuel : Nat) (st0 : RunState) (height : Nat) (last : List (String × String))
      (r : Except Error (TasksStatus × RunState)),
      mainLoop env is_tty fuel st0 height last = some r →
      ∃ ts st, r = Except.ok (ts, st)
  | 0, st0, height, last, r => by
      intro h
      simp [mainLoop] at h
  | Nat.succ fuel, st0, height, last, r => by
      intro h
      rw [mainLoop] at h
      obtain ⟨out, hi⟩ := loopIter_no_fail hf is_tty st0 height last
      obtain ⟨ts1, summary, st1, hh2, last2⟩ := out
      simp only [hi] at h
      split at h
      · split at h
        · simp only [Option.some.injEq] at h
          exact ⟨ts1, st1, h.symm⟩
        · cases hw : writeLine env.fails st1 summary with
          | error e => simp [writeLine_no_fail hf] at hw
          | ok st2 =>
              simp only [hw, Option.some.injEq] at h
              exact ⟨ts1, st2, h.symm⟩
      · exact mainLoop_no_error hf is_tty fuel
          { st1 with events := st1.events ++ [Event.notifyAwait] } hh2 last2 r h

/-- Event pattern of a successful main loop: reads and notifier suspensions
alternate, ending with the read of the break iteration. -/
def altEvents : Nat → List Event
  | 0 => [Event.statusRead]
  | Nat.succ k => Event.statusRead :: Event.notifyAwait :: altEvents k

/-- Whether no two status reads happen back to back. -/
def noAdjacentReads : List Event → Bool
  | Event.statusRead :: Event.statusRead :: _ => false
  | _ :: rest => noAdjacentReads rest
  | [] => true

lemma noAdjacentReads_altEvents : ∀ k, noAdjacentReads (altEvents k) = true
  | 0 => rfl
  | Nat.succ k => noAdjacentReads_altEvents k

lemma mainLoop_events (env : RunEnv) (is_tty : Bool) :
    ∀ (fuel : Nat) (st0 : RunState) (height : Nat) (last : List (String × String))
      (ts : TasksStatus) (st : RunState),
      mainLoop env is_tty fuel st0 height last = some (Except.ok (ts, st)) →
      ∃ k, st.events = st0.events ++ altEvents k
  | 0, st0, height, last, ts, st => by
      intro h
      simp [mainLoop] at h
  | Nat.succ fuel, st0, height, last, ts, st => by
      intro h
      rw [mainLoop] at h
      cases hi : loopIter env is_tty st0 height last with
      | error e => simp [hi] at h
      | ok out =>
          obtain ⟨ts1, summary, st1, hh2, last2⟩ := out
          simp only [hi] at h
          obtain ⟨-, hev1, -⟩ :=
            loopIter_ok env is_tty st0 height last ts1 summary st1 hh2 last2 hi
          split at h
          · split at h
            · simp only [Option.some.injEq, Except.ok.injEq, Prod.mk.injEq] at h
              obtain ⟨-, hst⟩ := h
              subst hst
              exact ⟨0, by rw [hev1]; rfl⟩
            · cases hw : writeLine env.fails st1 summary with
              | error e => simp [hw] at h
              | ok st2 =>
                  simp only [hw] at h
                  obtain ⟨-, he2⟩ := writeLine_ok _ _ _ _ hw
                  simp only [Option.some.injEq, Except.ok.injEq, Prod.mk.injEq] at h
                  obtain ⟨-, hst⟩ := h
                  subst hst
                  exact ⟨0, by rw [he2, hev1]; rfl⟩
          · obtain ⟨k, hk⟩ := mainLoop_events env is_tty fuel
              { st1 with events := st1.events ++ [Event.notifyAwait] } hh2 last2 ts st h
            refine ⟨k + 1, ?_⟩
            rw [hk]
            show (st1.events ++ [Event.notifyAwait]) ++ altEvents k =
              st0.events ++ altEvents (k + 1)
            rw [hev1]
            simp [altEvents, List.append_assoc]

lemma quietLoop_spec (env : RunEnv) :
    ∀ (fuel : Nat) (st0 : RunState) (ts : TasksStatus) (st : RunState),
      quietLoop env fuel st0 = some (ts, st) →
      ∃ p, st0.pos ≤ p ∧ p < st.pos ∧
        ts = get_tasks_status (env.w p) (env.clock p) env.order ∧
        ts.pending = 0 ∧ ts.running = 0
  | 0, st0, ts, st => by
      intro h
      simp [quietLoop] at h
  | Nat.succ fuel, st0, ts, st => by
      intro h
      simp only [quietLoop] at h
      split at h
      · rename_i hz
        simp only [Option.some.injEq, Prod.mk.injEq] at h
        obtain ⟨hts, hst⟩ := h
        subst hts
        subst hst
        exact ⟨st0.pos, Nat.le_refl _, by simp, rfl, hz⟩
      · obtain ⟨p, hp1, hp2, hp3, hp4⟩ := quietLoop_spec env fuel
          { st0 with pos := st0.pos + 1, events := st0.events ++ [Event.statusRead] } ts st h
        have hp1b : st0.pos + 1 ≤ p := hp1
        exact ⟨p, by omega, hp2, hp3, hp4⟩

lemma runTail_spec (env : RunEnv) (st : RunState) (ts : TasksStatus) (o : Outputs)
    (st2 : RunState) (h : runTail env st = Except.ok (ts, o, st2)) :
    o = env.outputs ∧ st2.events = st.events ∧
    ∃ q, st.pos ≤ q ∧ ts = get_tasks_status (env.w q) (env.clock q) env.order := by
  unfold runTail at h
  cases hm : maybeWriteErrors env.fails { st with pos := st.pos + 1 }
      (format_task_errors (env.w st.pos) (env.clock st.pos) env.order) with
  | error e => simp [hm] at h
  | ok stx =>
      simp only [hm] at h
      obtain ⟨hp1, he1⟩ := maybeWriteErrors_ok _ _ _ _ hm
      simp only [Except.ok.injEq, Prod.mk.injEq] at h
      obtain ⟨hts, ho, hst2⟩ := h
      have hpx : stx.pos = st.pos + 1 := hp1
      have hex : stx.events = st.events := he1
      refine ⟨ho.symm, ?_, stx.pos, by omega, hts.symm⟩
      rw [← hst2]
      exact hex

lemma runTail_no_fail {env : RunEnv} (hf : ∀ n, env.fails n = false) (st : RunState) :
    ∃ out, runTail env st = Except.ok out := by
  unfold runTail
  obtain ⟨stx, hm⟩ := maybeWriteErrors_no_fail hf { st with pos := st.pos + 1 }
    (format_task_errors (env.w st.pos) (env.clock st.pos) env.order)
  simp only [hm]
  exact ⟨_, rfl⟩

lemma run_spec (env : RunEnv) (v : Verbosity) (t : Bool) (fuel : Nat)
    (ts : TasksStatus) (o : Outputs) (st : RunState)
    (h : TasksUi.run env v t fuel = some (Except.ok (ts, o, st))) :
    o = env.outputs ∧
    ∃ p q, p ≤ q ∧
      (get_tasks_status (env.w p) (env.clock p) env.order).pending = 0 ∧
      (get_tasks_status (env.w p) (env.clock p) env.order).running = 0 ∧
      ts = get_tasks_status (env.w q) (env.clock q) env.order := by
  unfold TasksUi.run at h
  split at h
  · cases hq : quietLoop env fuel ⟨0, 0, [], []⟩ with
    | none => simp [hq] at h
    | some pair =>
        obtain ⟨ts0, st0⟩ := pair
        simp only [hq] at h
        have hrt : runTail env st0 = Except.ok (ts, o, st) := by simpa using h
        obtain ⟨p, hp0, hplt, hts0, hz1, hz2⟩ :=
          quietLoop_spec env fuel ⟨0, 0, [], []⟩ ts0 st0 hq
        obtain ⟨ho, hev, q, hq1, hts⟩ := runTail_spec env st0 ts o st hrt
        subst hts0
        exact ⟨ho, p, q, by omega, hz1, hz2, hts⟩
  · cases hw : writeLine env.fails ⟨0, 0, [], []⟩
        (padRight "Running tasks" 17 ++ " " ++
          String.intercalate ", " env.rootNames ++ "\n") with
    | error e => simp [hw] at h
    | ok st1 =>
        simp only [hw] at h
        cases hm : mainLoop env (t && ! decide (v = Verbosity.verbose)) fuel st1 0 [] with
        | none => simp [hm] at h
        | some x =>
            simp only [hm] at h
            cases x with
            | error e => simp at h
            | ok pair =>
                obtain ⟨ts0, st0⟩ := pair
                have hrt : runTail env st0 = Except.ok (ts, o, st) := by simpa using h
                obtain ⟨p, hp0, hplt, hts0, hz1, hz2⟩ :=
                  mainLoop_spec env _ fuel st1 0 [] ts0 st0 hm
                obtain ⟨ho, hev, q, hq1, hts⟩ := runTail_spec env st0 ts o st hrt
                subst hts0
                exact ⟨ho, p, q, by omega, hz1, hz2, hts⟩

lemma run_no_error (env : RunEnv) (v : Verbosity) (t : Bool) (fuel : Nat)
    (r : Except Error (TasksStatus × Outputs × RunState))
    (hf : ∀ n, env.fails n = false)
    (h : TasksUi.run env v t fuel = some r) :
    ∃ out, r = Except.ok out := by
  unfold TasksUi.run at h
  split at h
  · cases hq : quietLoop env fuel ⟨0, 0, [], []⟩ with
    | none => simp [hq] at h
    | some pair =>
        obtain ⟨ts0, st0⟩ := pair
        simp only [hq, Option.some.injEq] at h
        obtain ⟨out, hrt⟩ := runTail_no_fail hf st0
        exact ⟨out, by rw [← h, hrt]⟩
  · cases hw : writeLine env.fails ⟨0, 0, [], []⟩
        (padRight "Running tasks" 17 ++ " " ++
          String.intercalate ", " env.rootNames ++ "\n") with
    | error e => simp [writeLine_no_fail hf] at hw
    | ok st1 =>
        simp only [hw] at h
        cases hm : mainLoop env (t && ! decide (v = Verbosity.verbose)) fuel st1 0 [] with
        | none => simp [hm] at h
        | some x =>
            simp only [hm] at h
            obtain ⟨ts0, st0, hx⟩ := mainLoop_no_error hf _ fuel st1 0 [] x hm
            subst hx
            simp only [Option.some.injEq] at h
            obtain ⟨out, hrt⟩ := runTail_no_fail hf st0
            exact ⟨out, by rw [← h, hrt]⟩

/-- C1: when `TasksUi::run` returns successfully, every task has reached a
terminal status: the returned `TasksStatus` has zero pending and zero running
tasks, for every task graph, snapshot stream, verbosity level and terminal.
The loop breaks only once a read shows no pending or running task, and by
the monotone status lifecycle the final re-read shows the same terminal
statuses. -/
theorem c1_run_terminal {env : RunEnv} {v : Verbosity} {t : Bool} {fuel : Nat}
    {ts : TasksStatus} {o : Outputs} {st : RunState}
    (hm : MonoW env.w)
    (h : TasksUi.run env v t fuel = some (Except.ok (ts, o, st))) :
    ts.pending = 0 ∧ ts.running = 0 := by
  obtain ⟨-, p, q, hpq, hz1, hz2, hts⟩ := run_spec env v t fuel ts o st h
  rw [hts, get_frozen_of_le hm hpq env.order (env.clock p) (env.clock q) hz1 hz2]
  exact ⟨hz1, hz2⟩

/-- C2: when every console operation succeeds, `TasksUi::run` returns the
`Ok` variant no matter how many tasks ended failed or dependency-failed (the
environment, including the statuses every snapshot shows, is arbitrary): a
task failure only appears in the returned counts and in the formatted error
text, never as the `Err` variant of the result. -/
theorem c2_failures_are_data {env : RunEnv} {v : Verbosity} {t : Bool} {fuel : Nat}
    {r : Except Error (TasksStatus × Outputs × RunState)}
    (hf : ∀ n, env.fails n = false)
    (h : TasksUi.run env v t fuel = some r) :
    ∃ ts o st, r = Except.ok (ts, o, st) := by
  obtain ⟨out, hout⟩ := run_no_error env v t fuel r hf h
  exact ⟨out.1, out.2.1, out.2.2, hout⟩

/-- C4 (amended): for non-quiet verbosity the run loop suspends on the
change notifier between any two consecutive status reads — its event trace
alternates reads and notifier waits, so no two reads are adjacent.  In quiet
mode the loop instead re-reads the status without suspending (see the
counterexample). -/
theorem c4_notifier_wait_amended {env : RunEnv} {v : Verbosity} {t : Bool} {fuel : Nat}
    {r : TasksStatus × Outputs × RunState}
    (hv : v ≠ Verbosity.quiet)
    (h : TasksUi.run env v t fuel = some (Except.ok r)) :
    noAdjacentReads r.2.2.events = true := by
  obtain ⟨ts, o, st⟩ := r
  unfold TasksUi.run at h
  rw [if_neg hv] at h
  cases hw : writeLine env.fails ⟨0, 0, [], []⟩
      (padRight "Running tasks" 17 ++ " " ++
        String.intercalate ", " env.rootNames ++ "\n") with
  | error e => simp [hw] at h
  | ok st1 =>
      simp only [hw] at h
      cases hm2 : mainLoop env (t && ! decide (v = Verbosity.verbose)) fuel st1 0 [] with
      | none => simp [hm2] at h
      | some x =>
          simp only [hm2] at h
          cases x with
          | error e => simp at h
          | ok pair =>
              obtain ⟨ts0, st0⟩ := pair
              have hrt : runTail env st0 = Except.ok (ts, o, st) := by simpa using h
              obtain ⟨-, hev, -⟩ := runTail_spec env st0 ts o st hrt
              obtain ⟨k, hk⟩ := mainLoop_events env _ fuel st1 0 [] ts0 st0 hm2
              obtain ⟨-, hev1⟩ := writeLine_ok _ _ _ _ hw
              show noAdjacentReads st.events = true
              rw [hev, hk, hev1]
              show noAdjacentReads ([] ++ altEvents k) = true
              rw [List.nil_append]
              exact noAdjacentReads_altEvents k

/-- Projection used by the C4 counterexample: the observer events of a
successful run. -/
def runEvents (r : Option (Except Error (TasksStatus × Outputs × RunState))) :
    Option (List Event) :=
  match r with
  | some (Except.ok out) => some out.2.2.events
  | _ => none

/-- A one-task graph whose task already succeeded, observed through a
constant snapshot stream with no console failures. -/
def envK : RunEnv :=
  ⟨fun _ => [⟨"a", TaskStatus.completed (TaskCompleted.success 5 none)⟩],
   fun n => n, fun _ => false, [0], ["a"], 1, 0, ⟨"out"⟩⟩

lemma envK_mono : MonoW envK.w :=
  fun _ => graphLe_refl _

/-- A one-task graph whose task failed, observed through a constant snapshot
stream with no console failures. -/
def envF : RunEnv :=
  ⟨fun _ =>
      [⟨"t", TaskStatus.completed (TaskCompleted.failed 200 ⟨"boom", [(1500, "x")], []⟩)⟩],
   fun n => n, fun _ => false, [0], ["t"], 1, 0, ⟨"out"⟩⟩

/-- A one-task graph observed pending on the first read and skipped on every
later read. -/
def envC4 : RunEnv :=
  ⟨fun n =>
      if n = 0 then [⟨"a", TaskStatus.pending⟩]
      else [⟨"a", TaskStatus.completed (TaskCompleted.skipped Skipped.notImplemented)⟩],
   fun n => n, fun _ => false, [0], ["a"], 1, 0, ⟨"out"⟩⟩

/-- C4 counterexample: the quiet-mode wait loop re-reads the task status
without suspending on the change notifier — this concrete quiet run performs
two consecutive status reads (the first still sees a pending task), so the
claim fails at the Quiet verbosity level. -/
theorem c4_notifier_wait_counterexample :
    runEvents (TasksUi.run envC4 Verbosity.quiet true 5) =
      some [Event.statusRead, Event.statusRead] ∧
    noAdjacentReads [Event.statusRead, Event.statusRead] = false :=
  ⟨by decide, by decide⟩

/-- C6: the outcome of `TasksUi::run` — the returned `TasksStatus` and the
`Outputs` value — is the same for every verbosity level, terminal kind and
fuel, given the same environment (configuration, snapshot stream and engine
outputs): verbosity only changes what is rendered. -/
theorem c6_verbosity_only_rendering {env : RunEnv} {v1 v2 : Verbosity} {t1 t2 : Bool}
    {f1 f2 : Nat} {ts1 ts2 : TasksStatus} {o1 o2 : Outputs} {st1 st2 : RunState}
    (hm : MonoW env.w)
    (h1 : TasksUi.run env v1 t1 f1 = some (Except.ok (ts1, o1, st1)))
    (h2 : TasksUi.run env v2 t2 f2 = some (Except.ok (ts2, o2, st2))) :
    ts1 = ts2 ∧ o1 = o2 := by
  obtain ⟨ho1, p1, q1, hpq1, hz11, hz12, hts1⟩ := run_spec env v1 t1 f1 ts1 o1 st1 h1
  obtain ⟨ho2, p2, q2, hpq2, hz21, hz22, hts2⟩ := run_spec env v2 t2 f2 ts2 o2 st2 h2
  refine ⟨?_, by rw [ho1, ho2]⟩
  have e1 : ts1 = get_tasks_status (env.w p1) (env.clock p1) env.order := by
    rw [hts1, get_frozen_of_le hm hpq1 env.order (env.clock p1) (env.clock q1) hz11 hz12]
  have e2 : ts2 = get_tasks_status (env.w p2) (env.clock p2) env.order := by
    rw [hts2, get_frozen_of_le hm hpq2 env.order (env.clock p2) (env.clock q2) hz21 hz22]
  rcases Nat.le_total p1 p2 with hle | hle
  · rw [e1, e2]
    exact (get_frozen_of_le hm hle env.order (env.clock p1) (env.clock p2) hz11 hz12).symm
  · rw [e1, e2]
    exact get_frozen_of_le hm hle env.order (env.clock p2) (env.clock p1) hz21 hz22

/-- C1 witness: a concrete quiet run over a finished one-task graph returns
with zero pending and zero running tasks. -/
theorem c1_run_terminal_witness :
    ∃ r, TasksUi.run envK Verbosity.quiet true 2 = some (Except.ok r) ∧
      r.1.pending = 0 ∧ r.1.running = 0 := by
  obtain ⟨r, hr⟩ : ∃ r, TasksUi.run envK Verbosity.quiet true 2 = some (Except.ok r) :=
    ⟨_, rfl⟩
  exact ⟨r, hr, c1_run_terminal envK_mono hr⟩

/-- C2 witness: a concrete quiet run whose only task failed still returns
the `Ok` variant. -/
theorem c2_failures_are_data_witness :
    ∃ r, TasksUi.run envF Verbosity.quiet true 2 = some r ∧
      ∃ ts o st, r = Except.ok (ts, o, st) := by
  obtain ⟨r, hr⟩ : ∃ r, TasksUi.run envF Verbosity.quiet true 2 = some r := ⟨_, rfl⟩
  exact ⟨r, hr, c2_failures_are_data (fun n => rfl) hr⟩

/-- C4 amended witness: a concrete non-quiet, non-interactive run has an
event trace with no adjacent status reads. -/
theorem c4_notifier_wait_amended_witness :
    ∃ r, TasksUi.run envK Verbosity.normal false 3 = some (Except.ok r) ∧
      noAdjacentReads r.2.2.events = true := by
  obtain ⟨r, hr⟩ : ∃ r, TasksUi.run envK Verbosity.normal false 3 = some (Except.ok r) :=
    ⟨_, rfl⟩
  exact ⟨r, hr, c4_notifier_wait_amended (by decide) hr⟩

/-- C6 witness: a quiet run and a normal run over the same environment
return the same status and outputs. -/
theorem c6_verbosity_only_rendering_witness :
    ∃ r1 r2, TasksUi.run envK Verbosity.quiet true 2 = some (Except.ok r1) ∧
      TasksUi.run envK Verbosity.normal false 3 = some (Except.ok r2) ∧
      r1.1 = r2.1 ∧ r1.2.1 = r2.2.1 := by
  obtain ⟨r1, h1⟩ : ∃ r, TasksUi.run envK Verbosity.quiet true 2 = some (Except.ok r) :=
    ⟨_, rfl⟩
  obtain ⟨r2, h2⟩ : ∃ r, TasksUi.run envK Verbosity.normal false 3 = some (Except.ok r) :=
    ⟨_, rfl⟩
  exact ⟨r1, r2, h1, h2, c6_verbosity_only_rendering envK_mono h1 h2⟩

end Devenv
